import Mathlib

set_option maxRecDepth 20000

/-!
Verification development for the Parcelforce weekly-summary extractor
(`src/app.py`).  The core text-processing pipeline
(`grab_line_value`, `extract_meta`, `build_day_region_map`,
`parse_metrics_from_region`, `extract_days`, `rows_for_csv`) is embedded
shallowly: text is `List Char`, Python `re` searches are modelled by a
small backtracking regular-expression engine (`Rx`, `mall`, `searchRx`)
whose match-priority order follows Python's leftmost, greedy/lazy
backtracking semantics, and every pattern of the source is transcribed
constructor-by-constructor.  Dates are modelled by `PyDate` with the
proleptic-Gregorian calendar rules used by `datetime.date`.
The HTTP wrapper, PDF decoding and CSV serialisation are external
collaborators and are not modelled; `process_text` is the composition of
the core steps performed by `process_url` after the PDF text has been
obtained.
-/

/-- Python `\s` on `str` for the character repertoire of these documents:
ASCII whitespace plus the non-breaking space. -/
def isPySpace (c : Char) : Bool :=
  c == ' ' || c == '\t' || c == '\n' || c == '\r' ||
  c == '\x0b' || c == '\x0c' || c == '\u00A0'

/-- ASCII lower-casing, the effect of `re.I` on the ASCII-only patterns
and documents handled here. -/
def lcChar (c : Char) : Char :=
  if 'A' ≤ c ∧ c ≤ 'Z' then Char.ofNat (c.toNat + 32) else c

/-- Python `\w` (ASCII range): letters, digits, underscore. -/
def isWordChar (c : Char) : Bool := c.isAlphanum || c == '_'

/-- Python `str.strip()` (whitespace trimmed from both ends). -/
def pyStrip (l : List Char) : List Char :=
  ((l.dropWhile isPySpace).reverse.dropWhile isPySpace).reverse

/-- Numeric value of a digit string, as `int()` computes it on digits. -/
def natOfDigits (l : List Char) : Nat :=
  l.foldl (fun a c => 10 * a + (c.toNat - 48)) 0

/-- Decimal digit character for `d < 10`. -/
def digitChar (d : Nat) : Char := Char.ofNat (48 + d)

/-- Auxiliary decimal rendering with structural fuel. -/
def natDigitsAux : Nat → Nat → List Char
  | 0, _ => []
  | _ + 1, 0 => []
  | f + 1, n => natDigitsAux f (n / 10) ++ [digitChar (n % 10)]

/-- Python `str(n)` for a natural number. -/
def natToStr (n : Nat) : List Char :=
  if n = 0 then ['0'] else natDigitsAux (n + 1) n

/-- Zero-padded two-digit rendering, as in ISO date fields. -/
def pad2 (n : Nat) : List Char :=
  if n < 10 then ['0', digitChar n] else natToStr n

/-- Zero-padded four-digit rendering, as in ISO date fields. -/
def pad4 (n : Nat) : List Char :=
  if n < 10 then '0' :: '0' :: '0' :: [digitChar n]
  else if n < 100 then '0' :: '0' :: natToStr n
  else if n < 1000 then '0' :: natToStr n
  else natToStr n

/-- Python `"x".split("/")` (empty parts preserved). -/
def splitSlash : List Char → List (List Char)
  | [] => [[]]
  | c :: cs =>
    if c = '/' then [] :: splitSlash cs
    else
      match splitSlash cs with
      | [] => [[c]]
      | p :: ps => (c :: p) :: ps

/-- Python `int(s)` restricted to the forms reachable here: optional
surrounding whitespace, optional sign, then decimal digits. -/
def pyInt (s : List Char) : Option Int :=
  match pyStrip s with
  | [] => none
  | c :: ds =>
    if c = '-' then
      if ds ≠ [] ∧ ds.all Char.isDigit then some (-(natOfDigits ds : Int)) else none
    else if c = '+' then
      if ds ≠ [] ∧ ds.all Char.isDigit then some ((natOfDigits ds : Int)) else none
    else if (c :: ds).all Char.isDigit then some ((natOfDigits (c :: ds) : Int))
    else none

/-! ## Dates (`datetime.date` with the proleptic Gregorian calendar) -/

/-- A calendar date as `datetime.date` holds it. -/
structure PyDate where
  y : Nat
  m : Nat
  d : Nat
deriving DecidableEq

/-- Gregorian leap-year rule, as `calendar.isleap` / `datetime` use. -/
def pyIsLeap (y : Nat) : Bool :=
  (y % 4 == 0 && y % 100 != 0) || y % 400 == 0

/-- Days in a month of a given year (months 1..12). -/
def daysInMonth (y m : Nat) : Nat :=
  if m = 2 then (if pyIsLeap y then 29 else 28)
  else if m = 4 ∨ m = 6 ∨ m = 9 ∨ m = 11 then 30
  else 31

/-- The dates `datetime.date` accepts: year 1..9999, valid month and day. -/
def validDate (x : PyDate) : Prop :=
  1 ≤ x.y ∧ x.y ≤ 9999 ∧ 1 ≤ x.m ∧ x.m ≤ 12 ∧ 1 ≤ x.d ∧ x.d ≤ daysInMonth x.y x.m

instance (x : PyDate) : Decidable (validDate x) := by
  unfold validDate; infer_instance

/-- Strict calendar order on dates (lexicographic on year, month, day). -/
def dateLt (a b : PyDate) : Prop :=
  a.y < b.y ∨ (a.y = b.y ∧ (a.m < b.m ∨ (a.m = b.m ∧ a.d < b.d)))

instance (a b : PyDate) : Decidable (dateLt a b) := by
  unfold dateLt; infer_instance

/-- The calendar day before a date; models one step of
`date + timedelta(days=-1)`. -/
def prevDay (x : PyDate) : PyDate :=
  if 2 ≤ x.d then ⟨x.y, x.m, x.d - 1⟩
  else if 2 ≤ x.m then ⟨x.y, x.m - 1, daysInMonth x.y (x.m - 1)⟩
  else ⟨x.y - 1, 12, 31⟩

/-- The calendar day after a date; models one step of
`date + timedelta(days=1)`. -/
def nextDay (x : PyDate) : PyDate :=
  if x.d < daysInMonth x.y x.m then ⟨x.y, x.m, x.d + 1⟩
  else if x.m < 12 then ⟨x.y, x.m + 1, 1⟩
  else ⟨x.y + 1, 1, 1⟩

/-- Models `sat + dt.timedelta(days=-k)` from `rows_for_csv`: the date
`k` calendar days before `d`. -/
def subDays (k : Nat) (d : PyDate) : PyDate := prevDay^[k] d

/-- Leap days in years strictly before `y`. -/
def leapsBefore (y : Nat) : Nat := (y - 1) / 4 - (y - 1) / 100 + (y - 1) / 400

/-- Days in the months of year `y` strictly before month `m`. -/
def daysBeforeMonth (y m : Nat) : Nat :=
  (if m ≤ 1 then 0
   else if m = 2 then 31
   else if m = 3 then 59
   else if m = 4 then 90
   else if m = 5 then 120
   else if m = 6 then 151
   else if m = 7 then 181
   else if m = 8 then 212
   else if m = 9 then 243
   else if m = 10 then 273
   else if m = 11 then 304
   else 334) + (if 3 ≤ m ∧ pyIsLeap y then 1 else 0)

/-- Rata-die ordinal of a date, as `datetime.date.toordinal`
(0001-01-01 has ordinal 1, a Monday). -/
def dateOrd (x : PyDate) : Nat :=
  365 * (x.y - 1) + leapsBefore x.y + daysBeforeMonth x.y x.m + x.d

/-- A date falls on a Saturday exactly when its rata-die ordinal is
congruent to 6 mod 7 (ordinal 1 = Monday). -/
def isSaturday (x : PyDate) : Prop := dateOrd x % 7 = 6

instance (x : PyDate) : Decidable (isSaturday x) := by
  unfold isSaturday; infer_instance

/-- ISO rendering `YYYY-MM-DD`, as `date.isoformat()`. -/
def isoDate (x : PyDate) : List Char :=
  pad4 x.y ++ '-' :: (pad2 x.m ++ '-' :: pad2 x.d)

/-- Constructor guard of `dt.date(y, m, d)`: returns the date or the
`ValueError` that Python raises. -/
def mkDate (y m d : Int) : Except String PyDate :=
  if 1 ≤ y ∧ y ≤ 9999 ∧ 1 ≤ m ∧ m ≤ 12 ∧ 1 ≤ d ∧ d ≤ (daysInMonth y.toNat m.toNat : Int) then
    Except.ok ⟨y.toNat, m.toNat, d.toNat⟩
  else Except.error ("day is out of range for month")

/-- Models `parse_date_like` (src/app.py lines 23-32): strip, replace
`-` and `.` by `/`, split into exactly three parts, `int()` each,
interpret a two-digit year as 2000+year, and build the date. -/
def parse_date_like (s : List Char) : Except String PyDate :=
  let s1 := (pyStrip s).map (fun c => if c = '-' ∨ c = '.' then '/' else c)
  let parts := splitSlash s1
  match parts with
  | [ds, ms, ys] =>
    match pyInt ds, pyInt ms, pyInt ys with
    | some d, some m, some y0 =>
      let y := if y0 < 100 then y0 + 2000 else y0
      mkDate y m d
    | _, _, _ => Except.error ("invalid literal for int")
  | _ => Except.error ("Bad date")

/-! ## A small backtracking regex engine

Patterns are transcribed from the source 1:1; `mall` enumerates the
candidate matches of a pattern at a position in Python's backtracking
priority order (greedy quantifiers longest-first, lazy shortest-first),
and `searchRx` implements `re.search`'s leftmost rule.  Every search in
`src/app.py` uses `re.I`; character comparisons go through `lcChar`.
Star and bounded repetitions in the source only ever apply to
single-character classes, which the constructors reflect. -/

inductive Rx where
  | eps : Rx
  | cls : (Char → Bool) → Rx
  | cat : Rx → Rx → Rx
  | opt : Rx → Rx
  | starG : (Char → Bool) → Rx
  | starL : (Char → Bool) → Rx
  | repL : (Char → Bool) → Nat → Nat → Rx
  | grp : Nat → Rx → Rx
  | bol : Rx
  | wb : Rx

/-- Length of the maximal run of characters satisfying `p`. -/
def runLen (p : Char → Bool) : List Char → Nat
  | [] => 0
  | c :: cs => if p c then runLen p cs + 1 else 0

/-- Captured group spans: (group index, start, end). -/
abbrev Caps := List (Nat × Nat × Nat)

/-- Descending list `[n, n-1, ..., 0]` (greedy backtracking order). -/
def descList : Nat → List Nat
  | 0 => [0]
  | n + 1 => (n + 1) :: descList n

/-- Ascending list `[0, 1, ..., n]` (lazy backtracking order). -/
def ascList (n : Nat) : List Nat := List.range (n + 1)

/-- Whether position `i` of `t` holds a word character. -/
def wordAt (t : List Char) (i : Nat) : Bool :=
  match (t.drop i).head? with
  | some c => isWordChar c
  | none => false

/-- All candidate matches of `r` in `t` starting at position `i`, as
pairs of end position and captures, in Python's backtracking priority
order. -/
def mall (t : List Char) : Rx → Nat → List (Nat × Caps)
  | .eps, i => [(i, [])]
  | .cls p, i =>
    match t.drop i with
    | [] => []
    | c :: _ => if p c then [(i + 1, [])] else []
  | .cat a b, i =>
    (mall t a i).flatMap fun eg =>
      (mall t b eg.1).map fun eg2 => (eg2.1, eg.2 ++ eg2.2)
  | .opt a, i => mall t a i ++ [(i, [])]
  | .starG p, i => (descList (runLen p (t.drop i))).map fun k => (i + k, ([] : Caps))
  | .starL p, i => (ascList (runLen p (t.drop i))).map fun k => (i + k, ([] : Caps))
  | .repL p lo hi, i =>
    let n := min (runLen p (t.drop i)) hi
    if lo ≤ n then (List.range (n - lo + 1)).map (fun j => (i + lo + j, ([] : Caps)))
    else []
  | .grp g a, i => (mall t a i).map fun eg => (eg.1, (g, i, eg.1) :: eg.2)
  | .bol, i =>
    if i = 0 ∨ (t.drop (i - 1)).head? = some '\n' then [(i, [])] else []
  | .wb, i =>
    let before := if i = 0 then false else wordAt t (i - 1)
    if before ≠ wordAt t i then [(i, [])] else []

/-- Leftmost search: try positions `i, i+1, ...` until a match; the
fuel is always supplied as `t.length + 1` so every position is tried. -/
def searchAux (t : List Char) (r : Rx) : Nat → Nat → Option (Nat × Nat × Caps)
  | 0, _ => none
  | f + 1, i =>
    match mall t r i with
    | eg :: _ => some (i, eg.1, eg.2)
    | [] => if i < t.length then searchAux t r f (i + 1) else none

/-- Models `re.search`: leftmost match, returning start, end and
captures. -/
def searchRx (t : List Char) (r : Rx) : Option (Nat × Nat × Caps) :=
  searchAux t r (t.length + 1) 0

/-- Span of a captured group. -/
def capOf (caps : Caps) (g : Nat) : Option (Nat × Nat) :=
  (caps.find? (fun x => x.1 == g)).map (fun x => x.2)

/-- Text of a captured group (empty if the group is absent). -/
def capStr (t : List Char) (caps : Caps) (g : Nat) : List Char :=
  match capOf caps g with
  | some (s, e) => (t.drop s).take (e - s)
  | none => []

/-- Case-insensitive literal character (`re.I`). -/
def litC (c : Char) : Rx := .cls (fun x => lcChar x == lcChar c)

/-- Case-insensitive literal string as a chain of literal characters. -/
def litList (s : List Char) : Rx :=
  s.foldr (fun c r => .cat (litC c) r) .eps

/-- Pattern piece `\s*`. -/
def wsStar : Rx := .starG isPySpace

/-- Pattern piece `\s+`. -/
def wsPlus : Rx := .cat (.cls isPySpace) (.starG isPySpace)

/-- Pattern piece `\d{1,2}` (greedy). -/
def d12 : Rx := .cat (.cls Char.isDigit) (.opt (.cls Char.isDigit))

/-- Pattern piece `\d{2,4}` (greedy). -/
def d24 : Rx :=
  .cat (.cls Char.isDigit) (.cat (.cls Char.isDigit)
    (.opt (.cat (.cls Char.isDigit) (.opt (.cls Char.isDigit)))))

/-- Pattern piece `\d+` (greedy). -/
def digPlus : Rx := .cat (.cls Char.isDigit) (.starG Char.isDigit)

/-- Pattern piece matching one date separator: dot, slash or dash. -/
def dateSep : Rx := .cls (fun c => c == '.' || c == '/' || c == '-')

/-- Pattern piece `[^\r\n]`. -/
def notCRLF : Char → Bool := fun c => !(c == '\r' || c == '\n')

/-! ## The patterns of `src/app.py` -/

/-- Pattern piece `[:.]?` of `grab_line_value`. -/
def optColonDot : Rx := .opt (.cls (fun c => c == ':' || c == '.'))

/-- Pattern piece `[:\-]?`. -/
def optColonDash : Rx := .opt (.cls (fun c => c == ':' || c == '-'))

/-- The value part of `grab_line_value`'s pattern:
`\s*[:.]?\s*([^\r\n]+)`. -/
def grabTail : Rx :=
  .cat wsStar (.cat optColonDot (.cat wsStar
    (.grp 1 (.cat (.cls notCRLF) (.starG notCRLF)))))

/-- Label pattern `^Route\s*No`. -/
def routeLabel : Rx :=
  .cat .bol (.cat (litList ("Route".toList)) (.cat wsStar (litList ("No".toList))))

/-- Label pattern `^Invoice\s*No`. -/
def invoiceLabel : Rx :=
  .cat .bol (.cat (litList ("Invoice".toList)) (.cat wsStar (litList ("No".toList))))

/-- Label pattern `^Internal\s*Reference`. -/
def internalLabel : Rx :=
  .cat .bol (.cat (litList ("Internal".toList)) (.cat wsStar (litList ("Reference".toList))))

/-- Label pattern `^Contract\s*Number`. -/
def contractLabel : Rx :=
  .cat .bol (.cat (litList ("Contract".toList)) (.cat wsStar (litList ("Number".toList))))

/-- Label pattern `^Cost\s*Centre\s*Code`. -/
def costLabel : Rx :=
  .cat .bol (.cat (litList ("Cost".toList)) (.cat wsStar
    (.cat (litList ("Centre".toList)) (.cat wsStar (litList ("Code".toList))))))

/-- Models `grab_line_value` (src/app.py lines 41-47): value on the same
line as the label, up to end of line, stripped; empty when the label is
not found. -/
def grab_line_value (t : List Char) (label : Rx) : List Char :=
  match searchRx t (.cat label grabTail) with
  | some x => pyStrip (capStr t x.2.2 1)
  | none => []

/-- The strict week-ending pattern of `extract_meta`:
`^Week\s*ending\s*Saturday\s*[:\-]?\s*(<d>{1,2}<sep><d>{1,2}<sep><d>{2,4})` where `<d>` is `[0-9]` and `<sep>` the dot-slash-dash class. -/
def weekStrictPat : Rx :=
  .cat .bol (.cat (litList ("Week".toList)) (.cat wsStar
    (.cat (litList ("ending".toList)) (.cat wsStar
      (.cat (litList ("Saturday".toList)) (.cat wsStar
        (.cat optColonDash (.cat wsStar
          (.grp 1 (.cat d12 (.cat dateSep (.cat d12 (.cat dateSep d24)))))))))))))

/-- The fallback week pattern of `extract_meta` (with `re.S`):
`Week.{0,120}?(\d{1,2})<sep>(\d{1,2})<sep>(\d{2,4})` with `<sep>` the dot-slash-dash class. -/
def weekFallbackPat : Rx :=
  .cat (litList ("Week".toList)) (.cat (.repL (fun _ => true) 0 120)
    (.cat (.grp 1 d12) (.cat dateSep (.cat (.grp 2 d12) (.cat dateSep (.grp 3 d24))))))

/-- The header metadata record built by `extract_meta`.  The code stores
`WeekEnding` as the ISO string `sat.isoformat()` and `rows_for_csv`
re-parses it with `date.fromisoformat`; this lossless round trip is
modelled by keeping the date itself. -/
structure ReportMeta where
  routeNo : List Char
  invoiceNo : List Char
  internalRef : List Char
  contractNo : List Char
  costCentre : List Char
  weekEnding : PyDate
deriving DecidableEq

/-- Models `extract_meta` (src/app.py lines 49-76): grab the five line
values, then find the week-ending date by the strict pattern, else the
loose fallback, else raise. -/
def extract_meta (t : List Char) : Except String ReportMeta :=
  let route := grab_line_value t routeLabel
  let invoice := grab_line_value t invoiceLabel
  let internal := grab_line_value t internalLabel
  let contract := grab_line_value t contractLabel
  let cost := grab_line_value t costLabel
  let build := fun (sat : PyDate) =>
    ReportMeta.mk route invoice internal contract cost sat
  match searchRx t weekStrictPat with
  | some x => (parse_date_like (capStr t x.2.2 1)).map build
  | none =>
    match searchRx t weekFallbackPat with
    | none => Except.error ("Week ending Saturday date not found")
    | some x =>
      (parse_date_like
        (capStr t x.2.2 1 ++ '/' :: (capStr t x.2.2 2 ++ '/' :: capStr t x.2.2 3))).map build

/-! ## Day regions (`build_day_region_map`) -/

/-- The six weekday names of `DAY_NAMES`. -/
def DAY_NAMES : List (List Char) :=
  ["Monday".toList, "Tuesday".toList, "Wednesday".toList,
   "Thursday".toList, "Friday".toList, "Saturday".toList]

/-- Day-start pattern `^{day}\b:?` (anchored, `re.M`). -/
def dayStartPat (d : List Char) : Rx :=
  .cat .bol (.cat (litList d) (.cat .wb (.opt (.cls (fun c => c == ':')))))

/-- Day-start fallback pattern `\b{day}\b:?` (anywhere). -/
def dayAnywherePat (d : List Char) : Rx :=
  .cat .wb (.cat (litList d) (.cat .wb (.opt (.cls (fun c => c == ':')))))

/-- The sentinel tokens whose line-anchored occurrences end a day
region. -/
def SENTINEL_TOKENS : List (List Char) :=
  DAY_NAMES ++
  ["Route No".toList, "Week ending".toList, "Invoice No".toList,
   "Internal Reference".toList, "Contract Number".toList, "Cost Centre Code".toList]

/-- Whether some sentinel token matches line-anchored at position `i`
(`re.finditer(rf"^{token}", ..., re.I | re.M)` hits `i`). -/
def sentinelAt (t : List Char) (i : Nat) : Bool :=
  SENTINEL_TOKENS.any (fun tok => !(mall t (.cat .bol (litList tok)) i).isEmpty)

/-- All sentinel positions, ascending — the code's `sorted(set(...))`. -/
def sentinels (t : List Char) : List Nat :=
  (List.range (t.length + 1)).filter (fun i => sentinelAt t i)

/-- Start position of a day's region: the anchored match if any, else
the first anywhere-match, as in `build_day_region_map`. -/
def dayStartOf (t day : List Char) : Option Nat :=
  match searchRx t (dayStartPat day) with
  | some x => some x.1
  | none => (searchRx t (dayAnywherePat day)).map (fun x => x.1)

/-- End of the region starting at `s`: the first sentinel strictly after
`s`, else end of text (`ends[0] if ends else len(page1_text)`). -/
def regionEnd (t : List Char) (s : Nat) : Nat :=
  (((sentinels t).filter (fun q => s < q)).head?).getD t.length

/-- Models one entry of `build_day_region_map` (src/app.py lines
78-110): `page1_text[start:end][:1200]`, or `""` when the day is not
found. -/
def regionFor (t day : List Char) : List Char :=
  match dayStartOf t day with
  | none => []
  | some s => ((t.drop s).take (regionEnd t s - s)).take 1200

/-! ## Day metrics (`parse_metrics_from_region`, `money`) -/

/-- The string `"0.00"`. -/
def z00 : List Char := ['0', '.', '0', '0']

/-- Worker for `collapseWs`; the flag records whether the previous
character was whitespace (so a run emits one space in all). -/
def collapseWsAux : Bool → List Char → List Char
  | _, [] => []
  | inWs, c :: cs =>
    if isPySpace c then
      if inWs then collapseWsAux true cs else ' ' :: collapseWsAux true cs
    else c :: collapseWsAux false cs

/-- Collapse of whitespace runs to one space:
`re.sub(r"\s+", " ", x)`. -/
def collapseWs (l : List Char) : List Char := collapseWsAux false l

/-- The `replace` step of `extract_days` that turns each non-breaking space into a plain space. -/
def mapNbsp (t : List Char) : List Char :=
  t.map (fun c => if c = '\u00A0' then ' ' else c)

/-- Pattern `(?:Total\s+)?Stops\s*[:\-]?\s*(\d+)` (and the `Parcels`
variant), built over the given keyword. -/
def countPat (kw : List Char) : Rx :=
  .cat (.opt (.cat (litList ("Total".toList)) wsPlus))
    (.cat (litList kw) (.cat wsStar (.cat optColonDash (.cat wsStar (.grp 1 digPlus)))))

/-- The payment number `[0-9]+(?:[.,][0-9]{1,2})?`, capture group `g`. -/
def payNum (g : Nat) : Rx :=
  .grp g (.cat digPlus
    (.opt (.cat (.cls (fun c => c == '.' || c == ','))
      (.cat (.cls Char.isDigit) (.opt (.cls Char.isDigit))))))

/-- Pattern `Payment\s*[:\-]?\s*£?\s*([0-9]+(?:[.,][0-9]{1,2})?)`. -/
def paymentPat : Rx :=
  .cat (litList ("Payment".toList)) (.cat wsStar (.cat optColonDash
    (.cat wsStar (.cat (.opt (.cls (fun c => c == '£'))) (.cat wsStar (payNum 1))))))

/-- First capture of a search, if the pattern matches. -/
def searchCap1 (t : List Char) (r : Rx) : Option (List Char) :=
  (searchRx t r).map (fun x => capStr t x.2.2 1)

/-- Exact-decimal parse of the strings `float()` receives here
(digits with an optional point and fractional digits); `float`'s
rounding never shows at two rendered decimals for these magnitudes, so
the value is modelled as exact cents. -/
def decCents (s : List Char) : Option Nat :=
  let a := s.takeWhile (fun c => c ≠ '.')
  let b := s.dropWhile (fun c => c ≠ '.')
  match b with
  | [] => if a ≠ [] ∧ a.all Char.isDigit then some (natOfDigits a * 100) else none
  | _ :: f =>
    if (a ≠ [] ∨ f ≠ []) ∧ a.all Char.isDigit ∧ f.all Char.isDigit ∧ f.length ≤ 2 then
      some (natOfDigits a * 100 + natOfDigits f * (if f.length = 1 then 10 else 1))
    else none

/-- Rendering `f"{x:.2f}"` for a non-negative exact value in cents. -/
def renderCents (c : Nat) : List Char :=
  natToStr (c / 100) ++ '.' :: pad2 (c % 100)

/-- Models `money` (src/app.py lines 14-21): strip `£` and `,`, strip
whitespace, parse as a number and render with two decimals, with any
failure giving `"0.00"`. -/
def money (s : List Char) : List Char :=
  if s = [] then z00
  else
    let t := pyStrip (s.filter (fun c => c ≠ '£' ∧ c ≠ ','))
    match decCents t with
    | some c => renderCents c
    | none => z00

/-- Models `parse_metrics_from_region` (src/app.py lines 112-136): each
quantity is searched on the raw region, then on the
whitespace-collapsed region, and defaults to 0 / `"0.00"`. -/
def parse_metrics_from_region (seg : List Char) : Nat × Nat × List Char :=
  if seg = [] then (0, 0, z00)
  else
    let segNorm := collapseWs seg
    let sM := (searchCap1 seg (countPat ("Stops".toList))).orElse
      (fun _ => searchCap1 segNorm (countPat ("Stops".toList)))
    let pM := (searchCap1 seg (countPat ("Parcels".toList))).orElse
      (fun _ => searchCap1 segNorm (countPat ("Parcels".toList)))
    let payM := (searchCap1 seg paymentPat).orElse
      (fun _ => searchCap1 segNorm paymentPat)
    (sM.elim 0 natOfDigits, pM.elim 0 natOfDigits, payM.elim z00 money)

/-- The per-day global fallback pattern of `extract_days` (with `re.S`):
`{day}\b.*?(?:Total\s+)?Stops\s*[:\-]?\s*(\d+).*?(?:Total\s+)?Parcels\s*[:\-]?\s*(\d+).*?Payment\s*[:\-]?\s*£?\s*([0-9]+(?:[.,][0-9]{1,2})?)`. -/
def dayFallbackPat (d : List Char) : Rx :=
  .cat (litList d) (.cat .wb (.cat (.starL (fun _ => true))
    (.cat (countPat ("Stops".toList))
      (.cat (.starL (fun _ => true))
        (.cat (.cat (.opt (.cat (litList ("Total".toList)) wsPlus))
          (.cat (litList ("Parcels".toList)) (.cat wsStar (.cat optColonDash (.cat wsStar (.grp 2 digPlus))))))
          (.cat (.starL (fun _ => true))
            (.cat (litList ("Payment".toList)) (.cat wsStar (.cat optColonDash
              (.cat wsStar (.cat (.opt (.cls (fun c => c == '£'))) (.cat wsStar (payNum 3)))))))))))))

/-- Metrics from a fallback match on text `txt`. -/
def fallbackTriple (txt : List Char) (caps : Caps) : Nat × Nat × List Char :=
  (natOfDigits (capStr txt caps 1), natOfDigits (capStr txt caps 2),
   money (capStr txt caps 3))

/-- Models one day of `extract_days` (src/app.py lines 138-163): the
region-based parse, retried by the document-wide day pattern (first on
the raw text, then on the normalized text) whenever the region parse
returned exactly `(0, 0, "0.00")`. -/
def extract_days (t day : List Char) : Nat × Nat × List Char :=
  let first := parse_metrics_from_region (regionFor t day)
  if first = (0, 0, z00) then
    match searchRx t (dayFallbackPat day) with
    | some x => fallbackTriple t x.2.2
    | none =>
      let tn := collapseWs (mapNbsp t)
      match searchRx tn (dayFallbackPat day) with
      | some x => fallbackTriple tn x.2.2
      | none => first
  else first

/-! ## Output rows (`rows_for_csv`, `process_url` core) -/

/-- One CSV row as `rows_for_csv` builds it.  The column set is exactly
the code's: there is no invoice-number column. -/
structure Row where
  date : List Char
  routeNo : List Char
  stops : List Char
  parcels : List Char
  payment : List Char
  internalRef : List Char
  contractNo : List Char
  costCentre : List Char
deriving DecidableEq

/-- The fixed day offsets of `rows_for_csv`, as days before the
week-ending Saturday. -/
def DAY_OFFSETS : List (List Char × Nat) :=
  [("Monday".toList, 5), ("Tuesday".toList, 4), ("Wednesday".toList, 3),
   ("Thursday".toList, 2), ("Friday".toList, 1), ("Saturday".toList, 0)]

/-- Models `rows_for_csv` (src/app.py lines 165-183): one row per day in
Monday→Saturday order, the date projected from the week-ending date by
the fixed offset, metrics rendered as strings. -/
def rows_for_csv (meta : ReportMeta) (days : List Char → Nat × Nat × List Char) :
    List Row :=
  DAY_OFFSETS.map fun dk =>
    let m := days dk.1
    { date := isoDate (subDays dk.2 meta.weekEnding)
      routeNo := meta.routeNo
      stops := natToStr m.1
      parcels := natToStr m.2.1
      payment := m.2.2
      internalRef := meta.internalRef
      contractNo := meta.contractNo
      costCentre := meta.costCentre }

/-- The core of `process_url` (src/app.py lines 202-218) once the page
text is in hand: metadata extraction (whose `ValueError` becomes the
error response), day extraction, row assembly. -/
def process_text (t : List Char) : Except String (List Row) :=
  (extract_meta t).map (fun meta => rows_for_csv meta (extract_days t))

/-! ## Occurrence of a literal, and concrete inputs used in the claims -/

/-- Case-insensitive prefix test: does `s` match the beginning of the
text, character-classes as in `litC`. -/
def ciPrefB : List Char → List Char → Bool
  | [], _ => true
  | _ :: _, [] => false
  | c :: cs, d :: ds => (lcChar d == lcChar c) && ciPrefB cs ds

/-- Case-insensitive substring occurrence of `s` in `t`. -/
def ciOccB (s t : List Char) : Bool :=
  (List.range (t.length + 1)).any (fun i => ciPrefB s (t.drop i))

/-- Well-formedness of a day-name literal: non-empty and free of
whitespace (all six day names satisfy this). -/
def dayCharsOK (d : List Char) : Prop :=
  d ≠ [] ∧ ∀ c ∈ d, isPySpace c = false ∧ lcChar c ≠ ' '

instance (d : List Char) : Decidable (dayCharsOK d) := by
  unfold dayCharsOK; infer_instance

/-- Row constructor by position, for stating expected outputs. -/
def mkRow (date routeNo stops parcels payment internalRef contractNo costCentre :
    List Char) : Row :=
  ⟨date, routeNo, stops, parcels, payment, internalRef, contractNo, costCentre⟩

/-- The end-to-end example input of the spec (claim C1). -/
def text1 : List Char :=
  ("Route No.: 233\nInvoice No.*: LON2332524\nWeek ending Saturday:14.09.25\nMonday Total Stops: 107 Total Parcels: 226 Payment:281.93\n").toList

/-- The metadata the code extracts from `text1`. -/
def meta1 : ReportMeta :=
  { routeNo := (": 233").toList
    invoiceNo := ("*: LON2332524").toList
    internalRef := []
    contractNo := []
    costCentre := []
    weekEnding := ⟨2025, 9, 14⟩ }

/-- The rows the code produces from `text1`. -/
def rows1 : List Row :=
  [mkRow (("2025-09-09").toList) ((": 233").toList) (("107").toList) (("226").toList) (("281.93").toList) [] [] [],
   mkRow (("2025-09-10").toList) ((": 233").toList) (("0").toList) (("0").toList) (("0.00").toList) [] [] [],
   mkRow (("2025-09-11").toList) ((": 233").toList) (("0").toList) (("0").toList) (("0.00").toList) [] [] [],
   mkRow (("2025-09-12").toList) ((": 233").toList) (("0").toList) (("0").toList) (("0.00").toList) [] [] [],
   mkRow (("2025-09-13").toList) ((": 233").toList) (("0").toList) (("0").toList) (("0.00").toList) [] [] [],
   mkRow (("2025-09-14").toList) ((": 233").toList) (("107").toList) (("226").toList) (("281.93").toList) [] [] []]

/-- A document with week-ending date but neither Route No nor Invoice
No (claim C2). -/
def text2a : List Char :=
  ("Week ending Saturday: 14.09.25\nMonday Total Stops: 1 Total Parcels: 2 Payment: 3.00\n").toList

/-- The rows the code produces from `text2a`. -/
def rows2a : List Row :=
  [mkRow (("2025-09-09").toList) [] (("1").toList) (("2").toList) (("3.00").toList) [] [] [],
   mkRow (("2025-09-10").toList) [] (("0").toList) (("0").toList) (("0.00").toList) [] [] [],
   mkRow (("2025-09-11").toList) [] (("0").toList) (("0").toList) (("0.00").toList) [] [] [],
   mkRow (("2025-09-12").toList) [] (("0").toList) (("0").toList) (("0.00").toList) [] [] [],
   mkRow (("2025-09-13").toList) [] (("0").toList) (("0").toList) (("0.00").toList) [] [] [],
   mkRow (("2025-09-14").toList) [] (("1").toList) (("2").toList) (("3.00").toList) [] [] []]

/-- A document with Route No and Invoice No but no week-ending
date (claim C2). -/
def text2b : List Char :=
  ("Route No: 233\nInvoice No: LON1\nMonday Total Stops: 1 Total Parcels: 2 Payment: 3.00\n").toList

/-- A document whose Route No line carries several tokens (claim C3). -/
def textC3 : List Char :=
  ("Route No: 233 extra stuff\nWeek ending Saturday: 14.09.25\n").toList

/-- A document exercising all five metadata labels with multi-token
values (claim C3). -/
def textC3b : List Char :=
  ("Route No: 1 a\nInvoice No: 2 b\nInternal Reference: 3 c\nContract Number: 4 d\nCost Centre Code: 5 e\nWeek ending Saturday: 14.09.25\n").toList

/-- A day region whose payment digits are kerning-spaced (claim C4). -/
def text4seg : List Char :=
  ("Monday Total Stops: 107 Total Parcels: 226 Payment: 2 8 1 . 9 3\n").toList

/-- A document whose Monday payment digits are kerning-spaced
(claim C4). -/
def text4 : List Char :=
  ("Route No: 1\nWeek ending Saturday: 14.09.25\nMonday Total Stops: 107 Total Parcels: 226 Payment: 2 8 1 . 9 3\n").toList

/-- A document whose cost-centre value has a letter prefix (claim C5). -/
def text5 : List Char :=
  ("Cost Centre Code: A1234\nWeek ending Saturday: 14.09.25\n").toList

/-- The metadata the code extracts from `text5`. -/
def meta5 : ReportMeta :=
  { routeNo := []
    invoiceNo := []
    internalRef := []
    contractNo := []
    costCentre := ("A1234").toList
    weekEnding := ⟨2025, 9, 14⟩ }

/-- A document whose Monday block is followed by a Route No line and no
further day name (claim C6). -/
def text6 : List Char :=
  ("Monday Stops: 3\nRoute No: 9\nPayment: 7.77\n").toList

/-- A document whose Monday panel has only a zero payment, followed by
a complete Tuesday panel (claim C9). -/
def text9 : List Char :=
  ("Monday Payment: 0.00\nTuesday Total Stops: 5 Total Parcels: 7 Payment: 9.50\n").toList

/-! ## Theorems -/

/-- C1 (counterexample): on the spec's end-to-end example input the
Monday record's Route No field is `": 233"` (the line remainder after
the single optional separator consumed by the pattern), not `"233"` as
the claim states; so the claimed record contents are not produced. -/
theorem C1_counterexample :
    process_text text1 = Except.ok rows1 ∧
    rows1.head?.map Row.routeNo = some ((": 233").toList) ∧
    (": 233").toList ≠ ("233").toList := by
  refine ⟨rfl, rfl, ?_⟩
  decide

/-- C1 (amended): the example input yields a Monday record with
Date 2025-09-09, Stops 107, Parcels 226, Payment 281.93, and
Route No `": 233"`; the invoice number is captured in the metadata as
`"*: LON2332524"` but the output rows have no invoice-number field at
all (the `Row` column set is the code's). -/
theorem C1_amended_thm :
    process_text text1 = Except.ok rows1 ∧
    extract_meta text1 = Except.ok meta1 ∧
    meta1.invoiceNo = ("*: LON2332524").toList ∧
    rows1.head?.map Row.date = some (("2025-09-09").toList) ∧
    rows1.head?.map Row.stops = some (("107").toList) ∧
    rows1.head?.map Row.parcels = some (("226").toList) ∧
    rows1.head?.map Row.payment = some (("281.93").toList) ∧
    rows1.head?.map Row.routeNo = some ((": 233").toList) := by
  exact ⟨rfl, rfl, rfl, rfl, rfl, rfl, rfl, rfl⟩

/-- C2 (counterexample): a document missing both Route No and Invoice
No is processed successfully — no validation error at all, and the
rows carry an empty route number — contradicting the claim that any
missing mandatory field fails the document with an enumerating error. -/
theorem C2_counterexample :
    process_text text2a = Except.ok rows2a ∧
    rows2a.head?.map Row.routeNo = some [] := by
  exact ⟨rfl, rfl⟩

/-- C2 (amended): only the week-ending date is mandatory; its absence
fails the document with the single fixed message
`"Week ending Saturday date not found"` (no enumeration of other
fields), while missing Route No / Invoice No yield empty values and a
successful run. -/
theorem C2_amended_thm :
    process_text text2b = Except.error ("Week ending Saturday date not found") ∧
    process_text text2a = Except.ok rows2a := by
  exact ⟨rfl, rfl⟩

/-- C3 (counterexample): the captured Route No value on
`"Route No: 233 extra stuff"` is the whole line remainder
`"233 extra stuff"` — it contains a space, so it is not the first
contiguous token-like run as the claim states. -/
theorem C3_counterexample :
    (extract_meta textC3).map ReportMeta.routeNo =
      Except.ok (("233 extra stuff").toList) ∧
    (' ' ∈ ("233 extra stuff").toList ∧ isWordChar ' ' = false) := by
  refine ⟨rfl, ?_, ?_⟩ <;> decide

/-- C3 (amended): for each of the five metadata labels the captured
value is the entire stripped remainder of the label's line (after at
most one optional `:` or `.`), so a multi-token value is captured
whole rather than cut at the first token-like run. -/
theorem C3_amended_thm :
    extract_meta textC3b = Except.ok
      { routeNo := ("1 a").toList
        invoiceNo := ("2 b").toList
        internalRef := ("3 c").toList
        contractNo := ("4 d").toList
        costCentre := ("5 e").toList
        weekEnding := ⟨2025, 9, 14⟩ } := by
  exact rfl

/-- C4 (counterexample): the kerning-spaced payment `"2 8 1 . 9 3"`
parses to `"2.00"` (just the first digit run), not `"281.93"`: no
digit-run reassembly exists in the code. -/
theorem C4_counterexample :
    parse_metrics_from_region text4seg = (107, 226, ("2.00").toList) ∧
    extract_days text4 ("Monday".toList) = (107, 226, ("2.00").toList) ∧
    ("2.00").toList ≠ ("281.93").toList := by
  refine ⟨rfl, rfl, ?_⟩
  decide

/-- C4 (amended): normalization only collapses whitespace runs to a
single space and never joins digits across the remaining spaces, so
`"2 8 1 . 9 3"` is unchanged by it and a payment in that form parses
to `"2.00"` (the first digit run). -/
theorem C4_amended_thm :
    collapseWs (("2 8 1 . 9 3").toList) = ("2 8 1 . 9 3").toList ∧
    extract_days text4 ("Monday".toList) = (107, 226, ("2.00").toList) := by
  exact ⟨rfl, rfl⟩

/-- C5 (counterexample): the cost-centre value `"A1234"` keeps its
letter prefix both in the metadata and in every output row — no
digits-only reduction happens. -/
theorem C5_counterexample :
    (extract_meta text5).map ReportMeta.costCentre =
      Except.ok (("A1234").toList) ∧
    ('A' ∈ ("A1234").toList ∧ Char.isDigit 'A' = false) := by
  refine ⟨rfl, ?_, ?_⟩ <;> decide

/-- C5 (amended): the extracted Cost Centre Code is the raw stripped
line remainder with no character filtering, so a letter site-code
prefix is kept in the metadata and placed verbatim in the output
records. -/
theorem C5_amended_thm :
    extract_meta text5 = Except.ok meta5 ∧
    meta5.costCentre = ("A1234").toList ∧
    (process_text text5).map (fun rows => rows.map Row.costCentre) =
      Except.ok (List.replicate 6 (("A1234").toList)) := by
  exact ⟨rfl, rfl, rfl⟩

/-- C6 (counterexample): in `text6` no day name other than Monday
occurs and the text is far below the 1200-character cap, so the claim
predicts Monday's block runs to end-of-text; the code instead ends it
at the line-anchored `Route No` label. -/
theorem C6_counterexample :
    regionFor text6 ("Monday".toList) = ("Monday Stops: 3\n").toList ∧
    DAY_NAMES.all (fun d => d == ("Monday").toList || !ciOccB d text6) = true ∧
    text6.length ≤ 1200 ∧
    regionFor text6 ("Monday".toList) ≠ text6 := by
  refine ⟨rfl, ?_, ?_, ?_⟩ <;> decide

/-- C9: the region parse of Monday's block (`"Monday Payment: 0.00"`,
a legitimately zero panel with no Stops text at all in the region)
returns exactly `(0, 0, "0.00")`, which triggers the document-wide
fallback; that fallback captures Stops 5, Parcels 7 and Payment 9.50
from Tuesday's panel, outside Monday's block. -/
theorem C9_thm :
    regionFor text9 ("Monday".toList) = ("Monday Payment: 0.00\n").toList ∧
    ciOccB (("Stops").toList) (regionFor text9 ("Monday".toList)) = false ∧
    parse_metrics_from_region (regionFor text9 ("Monday".toList)) = (0, 0, z00) ∧
    extract_days text9 ("Monday".toList) = (5, 7, ("9.50").toList) := by
  exact ⟨rfl, by decide, rfl, rfl⟩

/-! ## Date lemmas for the projection claim -/

theorem daysInMonth_ge (y m : Nat) : 28 ≤ daysInMonth y m := by
  unfold daysInMonth
  split_ifs <;> omega

theorem validDate_mk (y m d : Nat) :
    validDate ⟨y, m, d⟩ ↔
      1 ≤ y ∧ y ≤ 9999 ∧ 1 ≤ m ∧ m ≤ 12 ∧ 1 ≤ d ∧ d ≤ daysInMonth y m := Iff.rfl

theorem dateLt_mk (y1 m1 d1 y2 m2 d2 : Nat) :
    dateLt ⟨y1, m1, d1⟩ ⟨y2, m2, d2⟩ ↔
      (y1 < y2 ∨ (y1 = y2 ∧ (m1 < m2 ∨ (m1 = m2 ∧ d1 < d2)))) := Iff.rfl

theorem prevDay_valid (x : PyDate) (hv : validDate x) (hne : x ≠ ⟨1, 1, 1⟩) :
    validDate (prevDay x) := by
  obtain ⟨y, m, d⟩ := x
  rw [validDate_mk] at hv
  simp only [ne_eq, PyDate.mk.injEq] at hne
  simp only [prevDay]
  split_ifs with h2 h3
  · rw [validDate_mk]
    omega
  · rw [validDate_mk]
    have hge := daysInMonth_ge y (m - 1)
    omega
  · rw [validDate_mk]
    have h12 : daysInMonth (y - 1) 12 = 31 := by simp [daysInMonth]
    omega

theorem prevDay_lt (x : PyDate) (hv : validDate x) (hne : x ≠ ⟨1, 1, 1⟩) :
    dateLt (prevDay x) x := by
  obtain ⟨y, m, d⟩ := x
  unfold validDate at hv
  dsimp only at hv
  simp only [ne_eq, PyDate.mk.injEq] at hne
  unfold prevDay dateLt
  dsimp only
  split_ifs with h2 h3 <;> (dsimp only; omega)

theorem nextDay_prevDay (x : PyDate) (hv : validDate x) : nextDay (prevDay x) = x := by
  obtain ⟨y, m, d⟩ := x
  rw [validDate_mk] at hv
  simp only [prevDay]
  split_ifs with h2 h3
  · show nextDay ⟨y, m, d - 1⟩ = ⟨y, m, d⟩
    have hlt : d - 1 < daysInMonth y m := by omega
    simp only [nextDay]
    rw [if_pos hlt]
    simp only [PyDate.mk.injEq, true_and]
    omega
  · show nextDay ⟨y, m - 1, daysInMonth y (m - 1)⟩ = ⟨y, m, d⟩
    simp only [nextDay]
    rw [if_neg (Nat.lt_irrefl (daysInMonth y (m - 1))),
        if_pos (show m - 1 < 12 by omega)]
    simp only [PyDate.mk.injEq, true_and]
    omega
  · show nextDay ⟨y - 1, 12, 31⟩ = ⟨y, m, d⟩
    have h12 : daysInMonth (y - 1) 12 = 31 := by simp [daysInMonth]
    simp only [nextDay]
    rw [if_neg (show ¬ 31 < daysInMonth (y - 1) 12 by rw [h12]; omega),
        if_neg (show ¬ (12 : Nat) < 12 by omega)]
    simp only [PyDate.mk.injEq, true_and]
    omega

theorem prevDay_eq_jan (x : PyDate) (hv : validDate x) (c : Nat) (h1 : 1 ≤ c)
    (h27 : c ≤ 27) (heq : prevDay x = ⟨1, 1, c⟩) : x = ⟨1, 1, c + 1⟩ := by
  obtain ⟨y, m, d⟩ := x
  unfold validDate at hv
  dsimp only at hv
  unfold prevDay at heq
  dsimp only at heq
  split_ifs at heq with h2 h3
  · simp only [PyDate.mk.injEq] at heq ⊢
    omega
  · exfalso
    simp only [PyDate.mk.injEq] at heq
    have hge := daysInMonth_ge y (m - 1)
    omega
  · exfalso
    simp only [PyDate.mk.injEq] at heq
    omega

theorem sat_not_early (S : PyDate) (hs : isSaturday S) :
    ∀ c, c ≤ 5 → S ≠ ⟨1, 1, c⟩ := by
  intro c hc heq
  subst heq
  simp [isSaturday, dateOrd, leapsBefore, daysBeforeMonth] at hs
  omega

/-- C8: for every valid week-ending Saturday `S`, `rows_for_csv`
projects exactly six dates in Monday→Saturday order via the fixed
offsets −5..0; the projected dates are strictly increasing valid
dates, the last is `S` itself, and advancing the first by five days
recovers `S` (so the first is `S` minus 5 days). -/
theorem C8_thm (S : PyDate) (meta : ReportMeta)
    (days : List Char → Nat × Nat × List Char)
    (hv : validDate S) (hs : isSaturday S) (hm : meta.weekEnding = S) :
    (rows_for_csv meta days).map Row.date =
      [isoDate (subDays 5 S), isoDate (subDays 4 S), isoDate (subDays 3 S),
       isoDate (subDays 2 S), isoDate (subDays 1 S), isoDate S] ∧
    ((rows_for_csv meta days).map Row.date).length = 6 ∧
    List.Chain' dateLt
      [subDays 5 S, subDays 4 S, subDays 3 S, subDays 2 S, subDays 1 S, S] ∧
    (∀ k, k ≤ 5 → validDate (subDays k S)) ∧
    nextDay^[5] (subDays 5 S) = S := by
  subst hm
  set S := meta.weekEnding with hSdef
  have z0 : subDays 0 S = S := rfl
  have step : ∀ k, subDays (k + 1) S = prevDay (subDays k S) :=
    fun k => Function.iterate_succ_apply' prevDay k S
  have hS : ∀ c, 1 ≤ c → c ≤ 5 → S ≠ ⟨1, 1, c⟩ := fun c _ h5 => sat_not_early S hs c h5
  have hv1 : validDate (subDays 1 S) := by
    rw [step 0, z0]; exact prevDay_valid S hv (hS 1 (by omega) (by omega))
  have hn1 : ∀ c, 1 ≤ c → c ≤ 4 → subDays 1 S ≠ ⟨1, 1, c⟩ := by
    intro c h1 h4 heq
    rw [step 0, z0] at heq
    exact hS (c + 1) (by omega) (by omega) (prevDay_eq_jan S hv c h1 (by omega) heq)
  have hv2 : validDate (subDays 2 S) := by
    rw [step 1]; exact prevDay_valid _ hv1 (hn1 1 (by omega) (by omega))
  have hn2 : ∀ c, 1 ≤ c → c ≤ 3 → subDays 2 S ≠ ⟨1, 1, c⟩ := by
    intro c h1 h3 heq
    rw [step 1] at heq
    exact hn1 (c + 1) (by omega) (by omega) (prevDay_eq_jan _ hv1 c h1 (by omega) heq)
  have hv3 : validDate (subDays 3 S) := by
    rw [step 2]; exact prevDay_valid _ hv2 (hn2 1 (by omega) (by omega))
  have hn3 : ∀ c, 1 ≤ c → c ≤ 2 → subDays 3 S ≠ ⟨1, 1, c⟩ := by
    intro c h1 h3 heq
    rw [step 2] at heq
    exact hn2 (c + 1) (by omega) (by omega) (prevDay_eq_jan _ hv2 c h1 (by omega) heq)
  have hv4 : validDate (subDays 4 S) := by
    rw [step 3]; exact prevDay_valid _ hv3 (hn3 1 (by omega) (by omega))
  have hn4 : subDays 4 S ≠ ⟨1, 1, 1⟩ := by
    intro heq
    rw [step 3] at heq
    exact hn3 2 (by omega) (by omega) (prevDay_eq_jan _ hv3 1 (by omega) (by omega) heq)
  have hv5 : validDate (subDays 5 S) := by
    rw [step 4]; exact prevDay_valid _ hv4 hn4
  have lt1 : dateLt (subDays 1 S) S := by
    rw [step 0, z0]; exact prevDay_lt S hv (hS 1 (by omega) (by omega))
  have lt2 : dateLt (subDays 2 S) (subDays 1 S) := by
    rw [step 1]; exact prevDay_lt _ hv1 (hn1 1 (by omega) (by omega))
  have lt3 : dateLt (subDays 3 S) (subDays 2 S) := by
    rw [step 2]; exact prevDay_lt _ hv2 (hn2 1 (by omega) (by omega))
  have lt4 : dateLt (subDays 4 S) (subDays 3 S) := by
    rw [step 3]; exact prevDay_lt _ hv3 (hn3 1 (by omega) (by omega))
  have lt5 : dateLt (subDays 5 S) (subDays 4 S) := by
    rw [step 4]; exact prevDay_lt _ hv4 hn4
  have r1 : nextDay (subDays 1 S) = S := by
    rw [step 0, z0]; exact nextDay_prevDay S hv
  have r2 : nextDay (subDays 2 S) = subDays 1 S := by
    rw [step 1]; exact nextDay_prevDay _ hv1
  have r3 : nextDay (subDays 3 S) = subDays 2 S := by
    rw [step 2]; exact nextDay_prevDay _ hv2
  have r4 : nextDay (subDays 4 S) = subDays 3 S := by
    rw [step 3]; exact nextDay_prevDay _ hv3
  have r5 : nextDay (subDays 5 S) = subDays 4 S := by
    rw [step 4]; exact nextDay_prevDay _ hv4
  refine ⟨rfl, rfl, ?_, ?_, ?_⟩
  · simp only [List.chain'_cons, List.chain'_singleton, and_true]
    exact ⟨lt5, lt4, lt3, lt2, lt1⟩
  · intro k hk
    interval_cases k
    · exact hv
    · exact hv1
    · exact hv2
    · exact hv3
    · exact hv4
    · exact hv5
  · calc nextDay^[5] (subDays 5 S)
        = nextDay^[4] (nextDay (subDays 5 S)) :=
          Function.iterate_succ_apply nextDay 4 (subDays 5 S)
      _ = nextDay^[4] (subDays 4 S) := by rw [r5]
      _ = nextDay^[3] (nextDay (subDays 4 S)) :=
          Function.iterate_succ_apply nextDay 3 (subDays 4 S)
      _ = nextDay^[3] (subDays 3 S) := by rw [r4]
      _ = nextDay^[2] (nextDay (subDays 3 S)) :=
          Function.iterate_succ_apply nextDay 2 (subDays 3 S)
      _ = nextDay^[2] (subDays 2 S) := by rw [r3]
      _ = nextDay^[1] (nextDay (subDays 2 S)) :=
          Function.iterate_succ_apply nextDay 1 (subDays 2 S)
      _ = nextDay^[1] (subDays 1 S) := by rw [r2]
      _ = nextDay^[0] (nextDay (subDays 1 S)) :=
          Function.iterate_succ_apply nextDay 0 (subDays 1 S)
      _ = S := by rw [r1]; exact Function.iterate_zero_apply nextDay S

/-- C8 (witness): instantiation at the concrete Saturday 2025-09-13. -/
theorem C8_witness :
    List.Chain' dateLt
      [subDays 5 ⟨2025, 9, 13⟩, subDays 4 ⟨2025, 9, 13⟩, subDays 3 ⟨2025, 9, 13⟩,
       subDays 2 ⟨2025, 9, 13⟩, subDays 1 ⟨2025, 9, 13⟩, ⟨2025, 9, 13⟩] ∧
    nextDay^[5] (subDays 5 ⟨2025, 9, 13⟩) = ⟨2025, 9, 13⟩ ∧
    validDate (⟨2025, 9, 13⟩ : PyDate) ∧ isSaturday (⟨2025, 9, 13⟩ : PyDate) := by
  have h := C8_thm ⟨2025, 9, 13⟩
    { routeNo := [], invoiceNo := [], internalRef := [], contractNo := [],
      costCentre := [], weekEnding := ⟨2025, 9, 13⟩ }
    (fun _ => (0, 0, z00)) (by decide) (by decide) rfl
  exact ⟨h.2.2.1, h.2.2.2.2, by decide, by decide⟩

/-! ## Region-boundary lemmas (claim C6) -/

theorem sentinels_sorted (t : List Char) : (sentinels t).Pairwise (· < ·) :=
  (List.pairwise_lt_range (t.length + 1)).filter _

theorem head_min_of_sorted {l : List Nat} (hp : l.Pairwise (· < ·)) {x : Nat}
    (hh : l.head? = some x) : ∀ y ∈ l, x ≤ y := by
  cases l with
  | nil => cases hh
  | cons a tl =>
    intro y hy
    simp only [List.head?_cons, Option.some.injEq] at hh
    subst hh
    rcases List.mem_cons.mp hy with rfl | hy
    · exact le_rfl
    · exact Nat.le_of_lt (List.rel_of_pairwise_cons hp hy)

/-- C6 (amended): when a day's start is found at `s`, its region is the
slice from `s` to `regionEnd t s` capped at 1200 characters, and
`regionEnd t s` is the nearest line-anchored sentinel occurrence after
`s` — a sentinel being any of the six day names (the day itself
included) or the labels Route No, Week ending, Invoice No, Internal
Reference, Contract Number, Cost Centre Code — or end-of-text when no
sentinel follows. -/
theorem C6_amended_thm (t day : List Char) (_hday : day ∈ DAY_NAMES) (s : Nat)
    (hs : dayStartOf t day = some s) :
    regionFor t day = ((t.drop s).take (regionEnd t s - s)).take 1200 ∧
    (regionEnd t s = t.length ∨
      (regionEnd t s ∈ sentinels t ∧ s < regionEnd t s)) ∧
    (∀ q ∈ sentinels t, s < q → regionEnd t s ≤ q) := by
  refine ⟨?_, ?_, ?_⟩
  · unfold regionFor
    rw [hs]
  · unfold regionEnd
    cases hfl : (sentinels t).filter (fun q => s < q) with
    | nil => simp
    | cons a tl =>
      simp only [List.head?_cons, Option.getD_some]
      have hmem : a ∈ (sentinels t).filter (fun q => s < q) := by
        rw [hfl]; exact List.mem_cons_self a tl
      rcases List.mem_filter.mp hmem with ⟨hmem2, hlt⟩
      exact Or.inr ⟨hmem2, of_decide_eq_true hlt⟩
  · intro q hq hlt
    unfold regionEnd
    have hqf : q ∈ (sentinels t).filter (fun q2 => s < q2) :=
      List.mem_filter.mpr ⟨hq, decide_eq_true hlt⟩
    cases hfl : (sentinels t).filter (fun q2 => s < q2) with
    | nil => rw [hfl] at hqf; cases hqf
    | cons a tl =>
      simp only [List.head?_cons, Option.getD_some]
      have hp := (sentinels_sorted t).filter (fun q2 => decide (s < q2))
      rw [hfl] at hp hqf
      exact head_min_of_sorted hp (by rfl) q hqf

/-- C6 (witness): the amended boundary rule instantiated on `text6`,
whose Monday region ends at the `Route No` sentinel. -/
theorem C6_witness :
    regionFor text6 (("Monday").toList) =
      ((text6.drop 0).take (regionEnd text6 0 - 0)).take 1200 ∧
    (regionEnd text6 0 = text6.length ∨
      (regionEnd text6 0 ∈ sentinels text6 ∧ 0 < regionEnd text6 0)) := by
  have h := C6_amended_thm text6 (("Monday").toList) (by decide) 0 (by rfl)
  exact ⟨h.1, h.2.1⟩

/-! ## Lemmas on `parse_date_like` (claim C10) -/

theorem dropWhile_all_neg {p : Char → Bool} :
    ∀ (l : List Char), (∀ c ∈ l, p c = false) → l.dropWhile p = l := by
  intro l h
  cases l with
  | nil => rfl
  | cons c cs =>
    rw [List.dropWhile_cons_of_neg]
    rw [h c (List.mem_cons_self c cs)]
    exact Bool.false_ne_true

theorem pyStrip_of_no_space (l : List Char) (h : ∀ c ∈ l, isPySpace c = false) :
    pyStrip l = l := by
  unfold pyStrip
  rw [dropWhile_all_neg l h]
  rw [dropWhile_all_neg l.reverse (fun c hc => h c (List.mem_reverse.mp hc))]
  exact List.reverse_reverse l

theorem isDigit_not_space (c : Char) (h : c.isDigit = true) : isPySpace c = false := by
  by_contra hs
  have hs2 : isPySpace c = true := by
    cases hv : isPySpace c
    · exact absurd hv hs
    · rfl
  simp only [isPySpace, Bool.or_eq_true, beq_iff_eq] at hs2
  rcases hs2 with ((((((h1 | h1) | h1) | h1) | h1) | h1) | h1) <;>
    (subst h1; exact absurd h (by decide))

theorem isDigit_ne (c : Char) (h : c.isDigit = true) :
    c ≠ '.' ∧ c ≠ '-' ∧ c ≠ '/' ∧ c ≠ '+' := by
  refine ⟨?_, ?_, ?_, ?_⟩ <;> (intro heq; subst heq; exact absurd h (by decide))

theorem map_id_of {f : Char → Char} :
    ∀ (l : List Char), (∀ c ∈ l, f c = c) → l.map f = l := by
  intro l h
  induction l with
  | nil => rfl
  | cons c cs ih =>
    rw [List.map_cons, h c (List.mem_cons_self c cs),
      ih (fun x hx => h x (List.mem_cons_of_mem c hx))]

theorem splitSlash_no_slash : ∀ (l : List Char), '/' ∉ l → splitSlash l = [l] := by
  intro l h
  induction l with
  | nil => rfl
  | cons c cs ih =>
    have hc : c ≠ '/' := by
      intro heq
      subst heq
      exact h (List.mem_cons_self _ _)
    have hrec := ih (fun hm => h (List.mem_cons_of_mem c hm))
    simp only [splitSlash]
    rw [if_neg hc, hrec]

theorem splitSlash_append :
    ∀ (a r : List Char), '/' ∉ a → splitSlash (a ++ '/' :: r) = a :: splitSlash r := by
  intro a
  induction a with
  | nil =>
    intro r _
    rw [List.nil_append]
    simp [splitSlash]
  | cons c cs ih =>
    intro r h
    have hc : c ≠ '/' := by
      intro heq
      subst heq
      exact h (List.mem_cons_self _ _)
    have hstep := ih r (fun hm => h (List.mem_cons_of_mem c hm))
    rw [List.cons_append]
    simp only [splitSlash]
    rw [if_neg hc, hstep]

theorem pyInt_digits (l : List Char) (hne : l ≠ [])
    (hd : ∀ c ∈ l, c.isDigit = true) : pyInt l = some ((natOfDigits l : Int)) := by
  unfold pyInt
  rw [pyStrip_of_no_space l (fun c hc => isDigit_not_space c (hd c hc))]
  cases l with
  | nil => exact absurd rfl hne
  | cons c cs =>
    have hdc := hd c (List.mem_cons_self c cs)
    have hnd := isDigit_ne c hdc
    show (if c = '-' then
        if cs ≠ [] ∧ cs.all Char.isDigit then some (-(natOfDigits cs : Int)) else none
      else if c = '+' then
        if cs ≠ [] ∧ cs.all Char.isDigit then some ((natOfDigits cs : Int)) else none
      else if (c :: cs).all Char.isDigit then some ((natOfDigits (c :: cs) : Int))
      else none) = some ((natOfDigits (c :: cs) : Int))
    rw [if_neg hnd.2.1, if_neg hnd.2.2.2, if_pos (List.all_eq_true.mpr hd)]

/-- C10: the week-ending date is never checked to fall on a Saturday.
Parsing a day.month.year triplet succeeds for every digit triplet
purely by the calendar-validity test of `mkDate` — no weekday appears
anywhere in the condition — and concretely `extract_meta` accepts
`14.09.25`, which is a Sunday (rata-die ordinal mod 7 is 0, not 6),
projecting the six output dates from it by the fixed offsets. -/
theorem C10_thm :
    (∀ (a b c : List Char), a ≠ [] → b ≠ [] → c ≠ [] →
      (∀ x ∈ a, x.isDigit = true) → (∀ x ∈ b, x.isDigit = true) →
      (∀ x ∈ c, x.isDigit = true) →
      parse_date_like (a ++ '.' :: (b ++ '.' :: c)) =
        mkDate
          (if (natOfDigits c : Int) < 100 then (natOfDigits c : Int) + 2000
           else (natOfDigits c : Int))
          (natOfDigits b) (natOfDigits a)) ∧
    extract_meta text1 = Except.ok meta1 ∧
    dateOrd meta1.weekEnding % 7 = 0 ∧
    ¬ isSaturday meta1.weekEnding ∧
    (process_text text1).map (List.map Row.date) =
      Except.ok
        [("2025-09-09").toList, ("2025-09-10").toList, ("2025-09-11").toList,
         ("2025-09-12").toList, ("2025-09-13").toList, ("2025-09-14").toList] := by
  refine ⟨?_, rfl, by decide, by decide, rfl⟩
  intro a b c ha hb hc hda hdb hdc
  have hnos : ∀ x ∈ (a ++ '.' :: (b ++ '.' :: c)), isPySpace x = false := by
    intro x hx
    rcases List.mem_append.mp hx with h | h
    · exact isDigit_not_space x (hda x h)
    · rcases List.mem_cons.mp h with rfl | h
      · decide
      · rcases List.mem_append.mp h with h | h
        · exact isDigit_not_space x (hdb x h)
        · rcases List.mem_cons.mp h with rfl | h
          · decide
          · exact isDigit_not_space x (hdc x h)
  have hf : ∀ (l : List Char), (∀ x ∈ l, x.isDigit = true) →
      l.map (fun ch => if ch = '-' ∨ ch = '.' then '/' else ch) = l := by
    intro l hl
    apply map_id_of
    intro x hx
    have hne := isDigit_ne x (hl x hx)
    rw [if_neg (fun hor => Or.elim hor (fun h => hne.2.1 h) (fun h => hne.1 h))]
  have hna : '/' ∉ a := fun h => (isDigit_ne _ (hda _ h)).2.2.1 rfl
  have hnb : '/' ∉ b := fun h => (isDigit_ne _ (hdb _ h)).2.2.1 rfl
  have hnc : '/' ∉ c := fun h => (isDigit_ne _ (hdc _ h)).2.2.1 rfl
  have hmap : ((a ++ '.' :: (b ++ '.' :: c)).map
      (fun ch => if ch = '-' ∨ ch = '.' then '/' else ch)) =
      a ++ '/' :: (b ++ '/' :: c) := by
    rw [List.map_append, hf a hda, List.map_cons, List.map_append, hf b hdb,
      List.map_cons, hf c hdc, if_pos (Or.inr rfl)]
  have hsplit : splitSlash (a ++ '/' :: (b ++ '/' :: c)) = [a, b, c] := by
    rw [splitSlash_append a _ hna, splitSlash_append b _ hnb,
      splitSlash_no_slash c hnc]
  simp only [parse_date_like]
  rw [pyStrip_of_no_space _ hnos, hmap, hsplit]
  show (match pyInt a, pyInt b, pyInt c with
    | some d, some m, some y0 => mkDate (if y0 < 100 then y0 + 2000 else y0) m d
    | _, _, _ => Except.error ("invalid literal for int")) =
    mkDate
      (if (natOfDigits c : Int) < 100 then (natOfDigits c : Int) + 2000
       else (natOfDigits c : Int))
      (natOfDigits b) (natOfDigits a)
  rw [pyInt_digits a ha hda, pyInt_digits b hb hdb, pyInt_digits c hc hdc]

/-- C10 (witness): the parse lemma instantiated at the digit strings of
`14.09.25`. -/
theorem C10_witness :
    parse_date_like (("14.09.25").toList) = Except.ok (⟨2025, 9, 14⟩ : PyDate) := by
  have h := C10_thm.1 (("14").toList) (("09").toList) (("25").toList)
    (by decide) (by decide) (by decide) (by decide) (by decide) (by decide)
  have e : ("14.09.25").toList =
      ("14").toList ++ '.' :: (("09").toList ++ '.' :: ("25").toList) := by decide
  rw [e, h]
  rfl

/-! ## Engine lemmas: a pattern headed by an absent literal never
matches (claim C7) -/

theorem mall_cat_fst_nil (t : List Char) (a b : Rx) (i : Nat)
    (h : mall t a i = []) : mall t (.cat a b) i = [] := by
  show ((mall t a i).flatMap fun eg =>
    (mall t b eg.1).map fun eg2 => (eg2.1, eg.2 ++ eg2.2)) = []
  rw [h]
  rfl

theorem mall_cat_all_nil (t : List Char) (a b : Rx) (i : Nat)
    (h : ∀ eg ∈ mall t a i, mall t b eg.1 = []) : mall t (.cat a b) i = [] := by
  show ((mall t a i).flatMap fun eg =>
    (mall t b eg.1).map fun eg2 => (eg2.1, eg.2 ++ eg2.2)) = []
  rw [List.flatMap_eq_nil_iff]
  intro eg heg
  rw [h eg heg]
  rfl

theorem mall_bol_end (t : List Char) (i : Nat) :
    ∀ eg ∈ mall t Rx.bol i, eg.1 = i := by
  intro eg heg
  show eg.1 = i
  have : mall t Rx.bol i =
      (if i = 0 ∨ (t.drop (i - 1)).head? = some '\n' then [(i, ([] : Caps))] else []) := rfl
  rw [this] at heg
  split_ifs at heg with hc
  · rw [List.mem_singleton.mp heg]
  · cases heg

theorem mall_wb_end (t : List Char) (i : Nat) :
    ∀ eg ∈ mall t Rx.wb i, eg.1 = i := by
  intro eg heg
  have : mall t Rx.wb i =
      (if (if i = 0 then false else wordAt t (i - 1)) ≠ wordAt t i
       then [(i, ([] : Caps))] else []) := rfl
  rw [this] at heg
  split_ifs at heg
  all_goals first
  | rw [List.mem_singleton.mp heg]
  | cases heg

theorem drop_succ_of_drop_cons {t : List Char} {i : Nat} {d : Char} {rest : List Char}
    (h : t.drop i = d :: rest) : t.drop (i + 1) = rest := by
  rw [← List.drop_drop 1 i t, h]
  rfl

theorem mall_lit_nil (t : List Char) : ∀ (s : List Char) (i : Nat),
    ciPrefB s (t.drop i) = false → mall t (litList s) i = [] := by
  intro s
  induction s with
  | nil =>
    intro i h
    exact absurd h (by simp [ciPrefB])
  | cons c cs ih =>
    intro i h
    show mall t (.cat (litC c) (litList cs)) i = []
    cases hdrop : t.drop i with
    | nil =>
      apply mall_cat_fst_nil
      show (match t.drop i with
        | [] => ([] : List (Nat × Caps))
        | d :: _ => if lcChar d == lcChar c then [(i + 1, [])] else []) = []
      rw [hdrop]
    | cons d rest =>
      by_cases htest : (lcChar d == lcChar c) = true
      · have hpref : ciPrefB cs rest = false := by
          rw [hdrop] at h
          simpa [ciPrefB, htest] using h
        apply mall_cat_all_nil
        intro eg heg
        have hend : eg.1 = i + 1 := by
          have hm : mall t (litC c) i = [(i + 1, ([] : Caps))] := by
            show (match t.drop i with
              | [] => ([] : List (Nat × Caps))
              | d2 :: _ => if lcChar d2 == lcChar c then [(i + 1, [])] else []) =
              [(i + 1, [])]
            rw [hdrop]
            simp [htest]
          rw [hm] at heg
          rw [List.mem_singleton.mp heg]
        rw [hend]
        apply ih
        rw [drop_succ_of_drop_cons hdrop]
        exact hpref
      · apply mall_cat_fst_nil
        show (match t.drop i with
          | [] => ([] : List (Nat × Caps))
          | d2 :: _ => if lcChar d2 == lcChar c then [(i + 1, [])] else []) = []
        rw [hdrop]
        simp only [Bool.not_eq_true] at htest
        simp [htest]

theorem searchAux_none (t : List Char) (r : Rx) (h : ∀ j, mall t r j = []) :
    ∀ f i, searchAux t r f i = none := by
  intro f
  induction f with
  | zero => intro i; rfl
  | succ f ih =>
    intro i
    show (match mall t r i with
      | eg :: _ => some (i, eg.1, eg.2)
      | [] => if i < t.length then searchAux t r f (i + 1) else none) = none
    rw [h i]
    split_ifs with hc
    · exact ih (i + 1)
    · rfl

theorem searchRx_none (t : List Char) (r : Rx) (h : ∀ j, mall t r j = []) :
    searchRx t r = none :=
  searchAux_none t r h (t.length + 1) 0

theorem ciPrefB_false_everywhere (d t : List Char) (hne : d ≠ [])
    (hocc : ciOccB d t = false) : ∀ j, ciPrefB d (t.drop j) = false := by
  intro j
  by_cases hj : j ≤ t.length
  · have hall := List.any_eq_false.mp hocc j (List.mem_range.mpr (by omega))
    cases hv : ciPrefB d (t.drop j)
    · rfl
    · exact absurd hv hall
  · rw [List.drop_eq_nil_of_le (by omega)]
    cases d with
    | nil => exact absurd rfl hne
    | cons c cs => rfl

theorem mall_dayStart_nil (t d : List Char) (hne : d ≠ [])
    (hocc : ciOccB d t = false) : ∀ j, mall t (dayStartPat d) j = [] := by
  intro j
  apply mall_cat_all_nil
  intro eg heg
  rw [mall_bol_end t j eg heg]
  exact mall_cat_fst_nil t _ _ j
    (mall_lit_nil t d j (ciPrefB_false_everywhere d t hne hocc j))

theorem mall_dayAnywhere_nil (t d : List Char) (hne : d ≠ [])
    (hocc : ciOccB d t = false) : ∀ j, mall t (dayAnywherePat d) j = [] := by
  intro j
  apply mall_cat_all_nil
  intro eg heg
  rw [mall_wb_end t j eg heg]
  exact mall_cat_fst_nil t _ _ j
    (mall_lit_nil t d j (ciPrefB_false_everywhere d t hne hocc j))

theorem mall_dayFallback_nil (t d : List Char) (hne : d ≠ [])
    (hocc : ciOccB d t = false) : ∀ j, mall t (dayFallbackPat d) j = [] := by
  intro j
  exact mall_cat_fst_nil t _ _ j
    (mall_lit_nil t d j (ciPrefB_false_everywhere d t hne hocc j))

/-! ## Occurrence is reflected through whitespace normalization
(claim C7): the day names contain no whitespace, so an occurrence in
the collapsed text implies one in the original. -/

theorem prefCWA : ∀ (v s : List Char), (∀ c ∈ s, lcChar c ≠ ' ') →
    ciPrefB s (collapseWsAux false v) = true → ciPrefB s v = true := by
  intro v
  induction v with
  | nil =>
    intro s hs h
    cases s with
    | nil => rfl
    | cons c cs => exact absurd h (by simp [collapseWsAux, ciPrefB])
  | cons d ds ih =>
    intro s hs h
    by_cases hd : isPySpace d = true
    · have he : collapseWsAux false (d :: ds) = ' ' :: collapseWsAux true ds := by
        simp [collapseWsAux, hd]
      rw [he] at h
      cases s with
      | nil => rfl
      | cons c cs =>
        exfalso
        have hx : ciPrefB (c :: cs) (' ' :: collapseWsAux true ds) =
            ((lcChar ' ' == lcChar c) && ciPrefB cs (collapseWsAux true ds)) := rfl
        rw [hx] at h
        rw [Bool.and_eq_true] at h
        have h1 := h.1
        have h2 : lcChar c = ' ' := by
          have h3 := beq_iff_eq.mp h1
          rw [show lcChar ' ' = ' ' from by decide] at h3
          exact h3.symm
        exact hs c (List.mem_cons_self c cs) h2
    · have hd2 : isPySpace d = false := by simpa using hd
      have he : collapseWsAux false (d :: ds) = d :: collapseWsAux false ds := by
        simp [collapseWsAux, hd2]
      rw [he] at h
      cases s with
      | nil => rfl
      | cons c cs =>
        have hx : ciPrefB (c :: cs) (d :: collapseWsAux false ds) =
            ((lcChar d == lcChar c) && ciPrefB cs (collapseWsAux false ds)) := rfl
        rw [hx] at h
        rw [Bool.and_eq_true] at h
        rcases h with ⟨h1, h2⟩
        have h3 := ih cs (fun x hx2 => hs x (List.mem_cons_of_mem c hx2)) h2
        show ((lcChar d == lcChar c) && ciPrefB cs ds) = true
        rw [h1, h3]
        rfl

theorem occCWA : ∀ (v : List Char) (b : Bool) (i : Nat) (s : List Char),
    s ≠ [] → (∀ c ∈ s, lcChar c ≠ ' ') →
    ciPrefB s ((collapseWsAux b v).drop i) = true →
    ∃ j, ciPrefB s (v.drop j) = true := by
  intro v
  induction v with
  | nil =>
    intro b i s hne hs h
    rw [show collapseWsAux b [] = [] from rfl, List.drop_nil] at h
    cases s with
    | nil => exact absurd rfl hne
    | cons c cs => exact absurd h (by simp [ciPrefB])
  | cons d ds ih =>
    intro b i s hne hs h
    by_cases hd : isPySpace d = true
    · cases b with
      | true =>
        have he : collapseWsAux true (d :: ds) = collapseWsAux true ds := by
          simp [collapseWsAux, hd]
        rw [he] at h
        obtain ⟨j, hj⟩ := ih true i s hne hs h
        exact ⟨j + 1, hj⟩
      | false =>
        have he : collapseWsAux false (d :: ds) = ' ' :: collapseWsAux true ds := by
          simp [collapseWsAux, hd]
        rw [he] at h
        cases i with
        | zero =>
          exfalso
          cases s with
          | nil => exact absurd rfl hne
          | cons c cs =>
            rw [List.drop_zero] at h
            have hx : ciPrefB (c :: cs) (' ' :: collapseWsAux true ds) =
                ((lcChar ' ' == lcChar c) && ciPrefB cs (collapseWsAux true ds)) := rfl
            rw [hx] at h
            rw [Bool.and_eq_true] at h
            have h1 := h.1
            have h2 : lcChar c = ' ' := by
              have h3 := beq_iff_eq.mp h1
              rw [show lcChar ' ' = ' ' from by decide] at h3
              exact h3.symm
            exact hs c (List.mem_cons_self c cs) h2
        | succ k =>
          rw [show (' ' :: collapseWsAux true ds).drop (k + 1) =
              (collapseWsAux true ds).drop k from rfl] at h
          obtain ⟨j, hj⟩ := ih true k s hne hs h
          exact ⟨j + 1, hj⟩
    · have hd2 : isPySpace d = false := by simpa using hd
      have he : collapseWsAux b (d :: ds) = d :: collapseWsAux false ds := by
        cases b <;> simp [collapseWsAux, hd2]
      rw [he] at h
      cases i with
      | zero =>
        rw [List.drop_zero] at h
        refine ⟨0, ?_⟩
        rw [List.drop_zero]
        cases s with
        | nil => rfl
        | cons c cs =>
          have hx : ciPrefB (c :: cs) (d :: collapseWsAux false ds) =
              ((lcChar d == lcChar c) && ciPrefB cs (collapseWsAux false ds)) := rfl
          rw [hx] at h
          rw [Bool.and_eq_true] at h
          rcases h with ⟨h1, h2⟩
          have h3 := prefCWA ds cs (fun x hx2 => hs x (List.mem_cons_of_mem c hx2)) h2
          show ((lcChar d == lcChar c) && ciPrefB cs ds) = true
          rw [h1, h3]
          rfl
      | succ k =>
        rw [show (d :: collapseWsAux false ds).drop (k + 1) =
            (collapseWsAux false ds).drop k from rfl] at h
        obtain ⟨j, hj⟩ := ih false k s hne hs h
        exact ⟨j + 1, hj⟩

theorem prefMap : ∀ (s : List Char), (∀ c ∈ s, lcChar c ≠ ' ') →
    ∀ (w : List Char), ciPrefB s (mapNbsp w) = true → ciPrefB s w = true := by
  intro s
  induction s with
  | nil => intro _ w _; rfl
  | cons c cs ih =>
    intro hs w h
    cases w with
    | nil => exact absurd h (by simp [mapNbsp, ciPrefB])
    | cons d ws =>
      have he : mapNbsp (d :: ws) =
          (if d = ' ' then ' ' else d) :: mapNbsp ws := rfl
      rw [he] at h
      by_cases hd : d = ' '
      · exfalso
        rw [if_pos hd] at h
        have hx : ciPrefB (c :: cs) (' ' :: mapNbsp ws) =
            ((lcChar ' ' == lcChar c) && ciPrefB cs (mapNbsp ws)) := rfl
        rw [hx] at h
        rw [Bool.and_eq_true] at h
        have h1 := h.1
        have h2 : lcChar c = ' ' := by
          have h3 := beq_iff_eq.mp h1
          rw [show lcChar ' ' = ' ' from by decide] at h3
          exact h3.symm
        exact hs c (List.mem_cons_self c cs) h2
      · rw [if_neg hd] at h
        have hx : ciPrefB (c :: cs) (d :: mapNbsp ws) =
            ((lcChar d == lcChar c) && ciPrefB cs (mapNbsp ws)) := rfl
        rw [hx] at h
        rw [Bool.and_eq_true] at h
        rcases h with ⟨h1, h2⟩
        have h3 := ih (fun x hx2 => hs x (List.mem_cons_of_mem c hx2)) ws h2
        show ((lcChar d == lcChar c) && ciPrefB cs ws) = true
        rw [h1, h3]
        rfl

theorem ciOccB_true_iff (s t : List Char) (hne : s ≠ []) :
    ciOccB s t = true ↔ ∃ j, ciPrefB s (t.drop j) = true := by
  unfold ciOccB
  constructor
  · intro h
    obtain ⟨i, _, hp⟩ := List.any_eq_true.mp h
    exact ⟨i, hp⟩
  · rintro ⟨j, hj⟩
    apply List.any_eq_true.mpr
    refine ⟨j, List.mem_range.mpr ?_, hj⟩
    by_contra hgt
    rw [List.drop_eq_nil_of_le (by omega)] at hj
    cases s with
    | nil => exact hne rfl
    | cons c cs => exact absurd hj (by simp [ciPrefB])

theorem ciOccB_norm_false (d t : List Char) (hne : d ≠ [])
    (hs : ∀ c ∈ d, lcChar c ≠ ' ') (hocc : ciOccB d t = false) :
    ciOccB d (collapseWs (mapNbsp t)) = false := by
  cases hv : ciOccB d (collapseWs (mapNbsp t)) with
  | false => rfl
  | true =>
    exfalso
    obtain ⟨i, hi⟩ := (ciOccB_true_iff d _ hne).mp hv
    rw [show collapseWs (mapNbsp t) = collapseWsAux false (mapNbsp t) from rfl] at hi
    obtain ⟨j, hj⟩ := occCWA (mapNbsp t) false i d hne hs hi
    have hdm : (mapNbsp t).drop j = mapNbsp (t.drop j) :=
      (List.map_drop _ t j).symm
    rw [hdm] at hj
    have hj2 := prefMap d hs (t.drop j) hj
    have hcontra := (ciOccB_true_iff d t hne).mpr ⟨j, hj2⟩
    rw [hocc] at hcontra
    cases hcontra

theorem extract_days_absent (t d : List Char) (hne : d ≠ [])
    (hs : ∀ c ∈ d, lcChar c ≠ ' ') (hocc : ciOccB d t = false) :
    extract_days t d = (0, 0, z00) := by
  have hstart : searchRx t (dayStartPat d) = none :=
    searchRx_none t _ (mall_dayStart_nil t d hne hocc)
  have hany : searchRx t (dayAnywherePat d) = none :=
    searchRx_none t _ (mall_dayAnywhere_nil t d hne hocc)
  have hreg : regionFor t d = [] := by
    unfold regionFor dayStartOf
    rw [hstart, hany]
    rfl
  have hfb1 : searchRx t (dayFallbackPat d) = none :=
    searchRx_none t _ (mall_dayFallback_nil t d hne hocc)
  have hocc2 := ciOccB_norm_false d t hne hs hocc
  have hfb2 : searchRx (collapseWs (mapNbsp t)) (dayFallbackPat d) = none :=
    searchRx_none _ _ (mall_dayFallback_nil _ d hne hocc2)
  simp only [extract_days]
  rw [hreg]
  rw [show parse_metrics_from_region [] = (0, 0, z00) from rfl]
  rw [if_pos rfl]
  rw [hfb1, hfb2]

/-- C7: whenever the metadata extraction succeeds the pipeline never
aborts: it emits exactly six rows, in Monday→Saturday order with the
dates projected from the week-ending date by the fixed offsets 5..0,
and any day whose name does not occur anywhere in the text
(case-insensitively) keeps the default metrics Stops 0, Parcels 0,
Payment "0.00" — each row is built only from its own day's extraction,
so the other days are unaffected. -/
theorem C7_thm (t : List Char) (meta : ReportMeta)
    (hm : extract_meta t = Except.ok meta) :
    process_text t = Except.ok (rows_for_csv meta (extract_days t)) ∧
    (rows_for_csv meta (extract_days t)).length = 6 ∧
    (rows_for_csv meta (extract_days t)).map Row.date =
      [isoDate (subDays 5 meta.weekEnding), isoDate (subDays 4 meta.weekEnding),
       isoDate (subDays 3 meta.weekEnding), isoDate (subDays 2 meta.weekEnding),
       isoDate (subDays 1 meta.weekEnding), isoDate (subDays 0 meta.weekEnding)] ∧
    (∀ i, i < 6 → ∀ dn, DAY_NAMES[i]? = some dn → ciOccB dn t = false →
      (rows_for_csv meta (extract_days t))[i]?.map Row.stops = some (['0']) ∧
      (rows_for_csv meta (extract_days t))[i]?.map Row.parcels = some (['0']) ∧
      (rows_for_csv meta (extract_days t))[i]?.map Row.payment = some z00) := by
  refine ⟨?_, rfl, ?_, ?_⟩
  · unfold process_text
    rw [hm]
    rfl
  · simp only [rows_for_csv, DAY_OFFSETS, List.map_cons, List.map_nil]
  · intro i hi dn hdn hocc
    interval_cases i
    · have hd2 : ("Monday").toList = dn := Option.some.inj hdn
      subst hd2
      have hz := extract_days_absent t (("Monday").toList) (by decide) (by decide) hocc
      refine ⟨?_, ?_, ?_⟩ <;>
        (simp only [rows_for_csv, DAY_OFFSETS, List.map_cons, List.map_nil,
          List.getElem?_cons_succ, List.getElem?_cons_zero, Option.map_some', hz]
         ; try rfl)
    · have hd2 : ("Tuesday").toList = dn := Option.some.inj hdn
      subst hd2
      have hz := extract_days_absent t (("Tuesday").toList) (by decide) (by decide) hocc
      refine ⟨?_, ?_, ?_⟩ <;>
        (simp only [rows_for_csv, DAY_OFFSETS, List.map_cons, List.map_nil,
          List.getElem?_cons_succ, List.getElem?_cons_zero, Option.map_some', hz]
         ; try rfl)
    · have hd2 : ("Wednesday").toList = dn := Option.some.inj hdn
      subst hd2
      have hz := extract_days_absent t (("Wednesday").toList) (by decide) (by decide) hocc
      refine ⟨?_, ?_, ?_⟩ <;>
        (simp only [rows_for_csv, DAY_OFFSETS, List.map_cons, List.map_nil,
          List.getElem?_cons_succ, List.getElem?_cons_zero, Option.map_some', hz]
         ; try rfl)
    · have hd2 : ("Thursday").toList = dn := Option.some.inj hdn
      subst hd2
      have hz := extract_days_absent t (("Thursday").toList) (by decide) (by decide) hocc
      refine ⟨?_, ?_, ?_⟩ <;>
        (simp only [rows_for_csv, DAY_OFFSETS, List.map_cons, List.map_nil,
          List.getElem?_cons_succ, List.getElem?_cons_zero, Option.map_some', hz]
         ; try rfl)
    · have hd2 : ("Friday").toList = dn := Option.some.inj hdn
      subst hd2
      have hz := extract_days_absent t (("Friday").toList) (by decide) (by decide) hocc
      refine ⟨?_, ?_, ?_⟩ <;>
        (simp only [rows_for_csv, DAY_OFFSETS, List.map_cons, List.map_nil,
          List.getElem?_cons_succ, List.getElem?_cons_zero, Option.map_some', hz]
         ; try rfl)
    · have hd2 : ("Saturday").toList = dn := Option.some.inj hdn
      subst hd2
      have hz := extract_days_absent t (("Saturday").toList) (by decide) (by decide) hocc
      refine ⟨?_, ?_, ?_⟩ <;>
        (simp only [rows_for_csv, DAY_OFFSETS, List.map_cons, List.map_nil,
          List.getElem?_cons_succ, List.getElem?_cons_zero, Option.map_some', hz]
         ; try rfl)

/-- C7 (witness): instantiation on the example document, whose Tuesday
does not occur in the text. -/
theorem C7_witness :
    process_text text1 = Except.ok (rows_for_csv meta1 (extract_days text1)) ∧
    (rows_for_csv meta1 (extract_days text1)).length = 6 ∧
    (rows_for_csv meta1 (extract_days text1))[1]?.map Row.stops = some (['0']) ∧
    (rows_for_csv meta1 (extract_days text1))[1]?.map Row.payment = some z00 := by
  have h := C7_thm text1 meta1 (by rfl)
  refine ⟨h.1, h.2.1, ?_, ?_⟩
  · exact (h.2.2.2 1 (by omega) (("Tuesday").toList) rfl (by decide)).1
  · exact (h.2.2.2 1 (by omega) (("Tuesday").toList) rfl (by decide)).2.2
